import Mathlib

/-!
Verification of the `nnrs` feed-forward neural network library.

This file gives a shallow embedding of the library's data model and
operations (layers, nodes, edges, networks, the forward `fire` pass, the
NEAT mutation dispatch and the generation step of the evolutionary loop),
translated from the Rust source files `layer.rs`, `node.rs`, `edge.rs`,
`network.rs`, `neat/mutation.rs` and `neat/environment.rs`.  Machine
floats (`f64`) are modelled as real numbers; randomness is modelled by
explicit oracle functions supplying index choices and sampled values.
-/

namespace NNRS

/-- Layer identifier, from `layer.rs`: `InputLayer`, `HiddenLayer(usize)`,
`OutputLayer`. -/
inductive LayerID where
  | InputLayer : LayerID
  | HiddenLayer : Nat → LayerID
  | OutputLayer : LayerID
deriving DecidableEq, Repr

/-- The total order on layers, translated arm by arm from `impl Ord for
LayerID` in `layer.rs` (`Input < Hidden(0) < Hidden(1) < … < Output`). -/
def LayerID.cmp : LayerID → LayerID → Ordering
  | .InputLayer, .InputLayer => .eq
  | .InputLayer, _ => .lt
  | .OutputLayer, .OutputLayer => .eq
  | .OutputLayer, _ => .gt
  | .HiddenLayer x, .HiddenLayer y => compare x y
  | .HiddenLayer _, .InputLayer => .gt
  | .HiddenLayer _, .OutputLayer => .lt

/-- Source `LayerID::is_hidden` as used by `neat/mutation.rs`. -/
def LayerID.isHidden : LayerID → Bool
  | .HiddenLayer _ => true
  | _ => false

/-- Node kinds, from `node.rs`. -/
inductive NodeType where
  | InputNode : NodeType
  | HiddenNode : NodeType
  | OutputNode : NodeType
deriving DecidableEq, Repr

/-- Activation functions, from `activationfn.rs` (the `Step` variant
carries its threshold). -/
inductive ActivationFn where
  | ReLU : ActivationFn
  | Sigmoid : ActivationFn
  | Tanh : ActivationFn
  | Linear : ActivationFn
  | LeakyReLU : ActivationFn
  | Step : ℝ → ActivationFn

/-- Source `ActivationFn::run` from `activationfn.rs`. -/
noncomputable def ActivationFn.run : ActivationFn → ℝ → ℝ
  | .ReLU, x => max x 0
  | .Sigmoid, x => 1 / (1 + Real.exp (-x))
  | .Tanh, x => Real.tanh x
  | .Linear, x => x
  | .LeakyReLU, x => max x 0 + 0.01 * x
  | .Step t, x => if t < x then 1 else 0

/-- A node, from `node.rs`: kind, id, layer, accumulator value,
threshold, bias and activation function. -/
@[ext]
structure Node where
  node_type : NodeType
  id : Nat
  layer_id : LayerID
  value : ℝ
  threshold : ℝ
  bias : ℝ
  activation_fn : ActivationFn

/-- An edge, from `edge.rs`: id, weight, source node id, destination
node id. -/
@[ext]
structure Edge where
  id : Nat
  weight : ℝ
  node_from_id : Nat
  node_to_id : Nat

/-- A network, from `network.rs`: owned node and edge lists, the declared
layer list, an optional fitness and the default activation function. -/
@[ext]
structure Network where
  nodes : List Node
  edges : List Edge
  layers : List LayerID
  fitness : Option ℝ
  activation_fn : ActivationFn

instance : Inhabited Network :=
  ⟨⟨[], [], [], none, .Linear⟩⟩

/-- Source `Network::get_node`: first node with the given id (`nodes.iter().find`). -/
def Network.get_node (net : Network) (node_id : Nat) : Option Node :=
  net.nodes.find? (fun n => n.id = node_id)

/-- Source `Network::get_edge`: first edge with the given id. -/
def Network.get_edge (net : Network) (edge_id : Nat) : Option Edge :=
  net.edges.find? (fun e => e.id = edge_id)

/-- Source `Network::get_layer`: the nodes of a layer, or `none` when the layer
id is not declared in `layers`. -/
def Network.get_layer (net : Network) (layer_id : LayerID) : Option (List Node) :=
  if net.layers.contains layer_id then
    some (net.nodes.filter (fun n => n.layer_id = layer_id))
  else none

/-- Source `Network::add_layer` from `network.rs`: append the hidden layer one
past the current maximum hidden ordinal (or `Hidden(0)` if none exists);
returns the new id and the updated network. -/
def Network.add_layer (net : Network) : LayerID × Network :=
  let hs := net.layers.filterMap (fun l => match l with
    | .HiddenLayer i => some i
    | _ => none)
  let next : LayerID := match hs.max? with
    | some m => .HiddenLayer (m + 1)
    | none => .HiddenLayer 0
  (next, { net with layers := net.layers ++ [next] })

/-- Source `Node::create_with_custom_activation` from `node.rs`: the id is
`max existing id + 1` (`max().unwrap_or(0) + 1`); fails when that id is
taken (unreachable) or the layer is not declared; the node kind is
derived from the layer id; the node starts with value `0`. -/
def Node.create_with_custom_activation (net : Network) (layer_id : LayerID)
    (threshold bias : ℝ) (activation_fn : ActivationFn) : Option (Nat × Network) :=
  let id := (net.nodes.map (fun n => n.id)).foldr Nat.max 0 + 1
  if (net.get_node id).isSome then none
  else if ¬ net.layers.contains layer_id then none
  else
    let node_type : NodeType := match layer_id with
      | .InputLayer => .InputNode
      | .OutputLayer => .OutputNode
      | .HiddenLayer _ => .HiddenNode
    let node : Node :=
      ⟨node_type, id, layer_id, 0, threshold, bias, activation_fn⟩
    some (id, { net with nodes := net.nodes ++ [node] })

/-- Source `Node::create`: like the above with the network's default activation
function. -/
def Node.create (net : Network) (layer_id : LayerID) (threshold bias : ℝ) :
    Option (Nat × Network) :=
  Node.create_with_custom_activation net layer_id threshold bias net.activation_fn

/-- Source `Edge::create` from `edge.rs`: the id is `max existing edge id + 1`;
both endpoints must resolve, the destination's layer must compare
`Greater` than the source's, and the fresh id must be unused; only then
is the edge pushed.  Failures return the network unchanged (the source
mutates nothing before its `ensure!` checks). -/
def Edge.create (net : Network) (node_from_id node_to_id : Nat) (weight : ℝ) :
    Option Nat × Network :=
  let id := (net.edges.map (fun e => e.id)).foldr Nat.max 0 + 1
  match net.get_node node_from_id with
  | none => (none, net)
  | some node_from =>
    match net.get_node node_to_id with
    | none => (none, net)
    | some node_to =>
      if node_to.layer_id.cmp node_from.layer_id ≠ .gt then (none, net)
      else if (net.get_edge id).isSome then (none, net)
      else (some id, { net with edges := net.edges ++ [⟨id, weight, node_from_id, node_to_id⟩] })

/-! ### The forward pass (`Network::fire` / `Network::fire_layer`)

Errors inside the pass leave the partially mutated state behind in the
Rust source (`?` early-returns from a `&mut self` method), so the
embeddings of `fire_layer` and `fire` return the current network next to
a success flag / optional output. -/

/-- Writing the external inputs into the input-layer nodes in order:
`nodes.iter_mut().filter(layer == Input).zip(inputs)` from
`Network::fire`. -/
def loadInputs : List Node → List ℝ → List Node
  | [], _ => []
  | n :: ns, ins =>
    if n.layer_id = .InputLayer then
      match ins with
      | [] => n :: ns
      | i :: is' => { n with value := i } :: loadInputs ns is'
    else n :: loadInputs ns ins

/-- Source `Network::get_node_mut` followed by `Node::add_value`: add `dv` to the
value of the first node with id `t`; `none` when no node has that id. -/
def addToNode : List Node → Nat → ℝ → Option (List Node)
  | [], _, _ => none
  | n :: ns, t, dv =>
    if n.id = t then some ({ n with value := n.value + dv } :: ns)
    else (addToNode ns t dv).map (fun ns' => n :: ns')

/-- The `(from, to, weight)` triples collected by `Network::fire_layer`:
for each node currently in layer `id` (in node order), every edge leaving
it (in edge order). -/
def layerTriples (net : Network) (id : LayerID) : List (Nat × Nat × ℝ) :=
  ((net.nodes.filter (fun n => n.layer_id = id)).map (fun n => n.id)).flatMap
    (fun i => (net.edges.filter (fun e => e.node_from_id = i)).map
      (fun e => (e.node_from_id, e.node_to_id, e.weight)))

/-- The edge-summing loop of `Network::fire_layer`: for each collected
`(from, to, weight)` triple, read the source node's current value and add
`value * weight` into the destination node.  A missing endpoint aborts,
keeping the accumulations already made. -/
def accumulate : List Node → List (Nat × Nat × ℝ) → Bool × List Node
  | ns, [] => (true, ns)
  | ns, (f, t, w) :: rest =>
    match ns.find? (fun n => n.id = f) with
    | none => (false, ns)
    | some nf =>
      match addToNode ns t (nf.value * w) with
      | none => (false, ns)
      | some ns' => accumulate ns' rest

/-- The activation step of `Network::fire_layer`: `value += bias` then
`value = activation_fn.run(value)`. -/
noncomputable def activateNode (n : Node) : Node :=
  { n with value := n.activation_fn.run (n.value + n.bias) }

/-- The successor layer computed at the end of `Network::fire_layer`:
`Input ↦ Hidden(0)`, `Hidden(k) ↦ Hidden(k+1)`, `Output ↦ Output`, then
replaced by `Output` when not declared. -/
def nextLayer (net : Network) (id : LayerID) : LayerID :=
  let nl : LayerID := match id with
    | .InputLayer => .HiddenLayer 0
    | .HiddenLayer k => .HiddenLayer (k + 1)
    | .OutputLayer => .OutputLayer
  if net.layers.contains nl then nl else .OutputLayer

/-- Source `Network::fire_layer` from `network.rs`: collect the outgoing edges of
the nodes currently in layer `id` (grouped by source node in node order),
sum them into their destinations, then add the bias and apply the
activation function to every node of the successor layer. -/
noncomputable def fireLayer (net : Network) (id : LayerID) : Bool × Network :=
  if ¬ net.layers.contains id then (false, net)
  else
    match accumulate net.nodes (layerTriples net id) with
    | (false, ns) => (false, { net with nodes := ns })
    | (true, ns) =>
      let nl := nextLayer net id
      if ¬ net.layers.contains nl then (false, { net with nodes := ns })
      else
        let ns' := ns.map (fun n => if n.layer_id = nl then activateNode n else n)
        (true, { net with nodes := ns' })

/-- The layer loop of `Network::fire`: fire each declared layer in the
stored order of `layers`, stopping at the first failure. -/
noncomputable def fireLayers (net : Network) : List LayerID → Bool × Network
  | [] => (true, net)
  | l :: ls =>
    match fireLayer net l with
    | (false, net') => (false, net')
    | (true, net') => fireLayers net' ls

/-- Zeroing a node's accumulator (`Node::reset`). -/
def resetNode (n : Node) : Node :=
  { n with value := 0 }

/-- Source `Network::fire` from `network.rs`: check that the input count matches
the number of input-layer nodes, load the inputs, fire every declared
layer in stored order, read the output-layer values in node order, and
reset every node's value to zero. -/
noncomputable def fire (net : Network) (inputs : List ℝ) : Option (List ℝ) × Network :=
  if (net.nodes.filter (fun n => n.layer_id = .InputLayer)).length ≠ inputs.length
  then (none, net)
  else
    let net1 : Network := { net with nodes := loadInputs net.nodes inputs }
    match fireLayers net1 net1.layers with
    | (false, net2) => (none, net2)
    | (true, net2) =>
      if net2.layers.contains LayerID.OutputLayer then
        let outs := (net2.nodes.filter (fun n => n.layer_id = .OutputLayer)).map
          (fun n => n.value)
        (some outs, { net2 with nodes := net2.nodes.map resetNode })
      else (none, net2)

/-! ### The mutation engine (`neat/mutation.rs`)

Randomness is modelled by two oracles: `σ : Nat → Nat` supplies index
choices (each `choose` / `gen_range` over indices reads `σ` at a fresh
position `p`) and `ρ : Nat → ℝ` supplies sampled scalars.  Fallback
chaining is modelled with an explicit fuel counter; the outer `none`
means the fuel ran out (the source recurses directly), the inner `none`
is a propagated `Err`. -/

/-- The eight mutation operators of `neat/mutation.rs`. -/
inductive Mutation where
  | AddNode : Mutation
  | AddLayer : Mutation
  | AddEdge : Mutation
  | RemoveNode : Mutation
  | RemoveEdge : Mutation
  | ChangeWeight : Mutation
  | ChangeBias : Mutation
  | ChangeActivationFn : Mutation

/-- Source `SliceRandom::choose` / `IteratorRandom::choose` driven by the index
oracle: `none` on an empty list, otherwise the element at `σ p` modulo
the length. -/
def chooseL (σ : Nat → Nat) (p : Nat) (l : List α) : Option α :=
  l.get? (σ p % l.length)

/-- In-place update of the element at an index (`choose_mut` followed by a
field assignment); out-of-range indices leave the list unchanged. -/
def modifyIdx : List α → Nat → (α → α) → List α
  | [], _, _ => []
  | a :: as', 0, f => f a :: as'
  | a :: as', j + 1, f => a :: modifyIdx as' j f

/-- Source `ActivationFn::select_random` from `neat/random.rs` (its sixth variant
is the threshold step function, with a freshly sampled threshold). -/
def selectRandomAfn (σ : Nat → Nat) (ρ : Nat → ℝ) (p : Nat) : ActivationFn :=
  match σ p % 6 with
  | 0 => .Sigmoid
  | 1 => .Tanh
  | 2 => .ReLU
  | 3 => .Linear
  | 4 => .LeakyReLU
  | _ => .Step (ρ p)

/-- Source `MutableNetwork::mutate` from `neat/mutation.rs`.  Each operator either
applies its edit or re-enters the dispatch with its fallback operator
(consuming one unit of fuel).  The snapshot's node creation passes a
single random scalar to `Node::create`; it is the new node's bias
("random bias", spec §4.4) and the threshold is left at zero. -/
def mutate : Nat → (Nat → Nat) → (Nat → ℝ) → Nat → Network → Mutation →
    Option (Option Network)
  | 0, _, _, _, _, _ => none
  | fuel + 1, σ, ρ, p, net, m =>
    match m with
    | .AddNode =>
      match chooseL σ p (net.layers.filter LayerID.isHidden) with
      | none => mutate fuel σ ρ (p + 1) net .AddLayer
      | some layer => some ((Node.create net layer 0 (ρ (p + 1))).map (fun r => r.2))
    | .AddLayer =>
      let r := net.add_layer
      some ((Node.create r.2 r.1 0 (ρ p)).map (fun q => q.2))
    | .AddEdge =>
      match chooseL σ p net.nodes with
      | none => mutate fuel σ ρ (p + 1) net .AddNode
      | some node1 =>
        match chooseL σ (p + 1) (net.nodes.filter (fun n => n.layer_id ≠ node1.layer_id)) with
        | none => mutate fuel σ ρ (p + 2) net .AddNode
        | some node2 =>
          let pr := if node1.layer_id.cmp node2.layer_id = .lt
            then (node1, node2) else (node2, node1)
          if net.edges.any (fun e =>
              e.node_from_id = pr.1.id ∧ e.node_to_id = pr.2.id) then
            mutate fuel σ ρ (p + 2) net .ChangeWeight
          else
            match Edge.create net pr.1.id pr.2.id (ρ (p + 2)) with
            | (some _, net') => some (some net')
            | (none, _) => some none
    | .RemoveNode =>
      match chooseL σ p (net.nodes.enum.filter (fun q => q.2.layer_id.isHidden)) with
      | none => mutate fuel σ ρ (p + 1) net .AddNode
      | some q =>
        let net' : Network := { net with
          edges := net.edges.filter (fun e =>
            e.node_from_id ≠ q.2.id ∧ e.node_to_id ≠ q.2.id),
          nodes := net.nodes.eraseIdx q.1 }
        some (some net')
    | .RemoveEdge =>
      if net.edges.isEmpty then mutate fuel σ ρ p net .AddEdge
      else some (some { net with edges := net.edges.eraseIdx (σ p % net.edges.length) })
    | .ChangeWeight =>
      if net.edges.isEmpty then mutate fuel σ ρ (p + 1) net .AddEdge
      else
        let i := σ p % net.edges.length
        some (some { net with
          edges := modifyIdx net.edges i (fun e => { e with weight := e.weight + ρ (p + 1) }) })
    | .ChangeBias =>
      if net.nodes.isEmpty then mutate fuel σ ρ (p + 1) net .AddNode
      else
        let i := σ p % net.nodes.length
        some (some { net with
          nodes := modifyIdx net.nodes i (fun n => { n with bias := n.bias + ρ (p + 1) }) })
    | .ChangeActivationFn =>
      if net.nodes.isEmpty then mutate fuel σ ρ (p + 1) net .AddNode
      else
        let i := σ p % net.nodes.length
        some (some { net with
          nodes := modifyIdx net.nodes i
            (fun n => { n with activation_fn := selectRandomAfn σ ρ (p + 1) }) })

/-! ### The generation step (`neat/environment.rs`) -/

/-- Modelled from the spec: the effect of one `Environment::randomly_mutate`
call on a network.  The mutation operators it dispatches to
(`add_node_to_existing_layer`, `add_node_to_new_layer`, `add_edge`,
`modify_edge`, `remove_edge`, `modify_node`, `remove_node`, §4.4) are not
in the source tree, so a round of mutations is abstracted as an oracle
`μ : Nat → Nat → Network → Network` applied to the running state —
`chainState μ i base j` is the state of seed `i` after `j` mutation
rounds, matching the cumulative in-place mutation of
`Environment::next_generation`'s inner loop. -/
def chainState (μ : Nat → Nat → Network → Network) (i : Nat) (base : Network) :
    Nat → Network
  | 0 => base
  | j + 1 => μ i j (chainState μ i base j)

/-- The inner loop of `Environment::next_generation` for one retained
index `i`: `popSize / threshold` successive pushes of the cumulatively
mutated clone of seed `i`. -/
def groupPushes (μ : Nat → Nat → Network → Network) (i : Nat) (base : Network)
    (count : Nat) : List Network :=
  (List.range count).map (fun j => chainState μ i base (j + 1))

/-- The repopulation of `Environment::next_generation`: for every retained
index `i < next_gen_threshold`, clone the population, mutate its `i`-th
member cumulatively and push `population_size / next_gen_threshold`
snapshots of it. -/
def repopulate (pop : List Network) (μ : Nat → Nat → Network → Network)
    (threshold popSize : Nat) : List Network :=
  (List.range threshold).flatMap
    (fun i => groupPushes μ i (pop.getD i default) (popSize / threshold))

/-- Source `Environment::evaluate_all`: store the external evaluator's fitness on
every individual (the evaluator is a pure scalar function per spec §6). -/
def evaluate_all (ε : Network → ℝ) (pop : List Network) : List Network :=
  pop.map (fun n => { n with fitness := some (ε n) })

/-- Source `Environment::sort_by_fitness`: sort descending by fitness
(`b.fitness.unwrap_or_default().total_cmp(&a.fitness.unwrap_or_default())`). -/
noncomputable def sort_by_fitness (pop : List Network) : List Network :=
  pop.mergeSort (fun a b => decide (b.fitness.getD 0 ≤ a.fitness.getD 0))

/-- Source `Environment::next_generation`: repopulate from the retained seeds,
replace the population, evaluate every individual and sort by fitness. -/
noncomputable def next_generation (pop : List Network)
    (μ : Nat → Nat → Network → Network) (ε : Network → ℝ)
    (threshold popSize : Nat) : List Network :=
  sort_by_fitness (evaluate_all ε (repopulate pop μ threshold popSize))

/-! ### Serialization (`Network::serialize` / `Network::deserialized`) -/

/-- Modelled from the spec: the persistence format.  The source delegates
to the external `serde_json` collaborator (`serde_json::to_string` /
`from_str`); spec §6 prescribes only "a structural encoding of the
Network's full node list, edge list, declared layers, and default
activation function, sufficient for exact reconstruction".  `SExp` is
such a structural encoding target. -/
inductive SExp where
  | nat : Nat → SExp
  | real : ℝ → SExp
  | opt : Option SExp → SExp
  | pair : SExp → SExp → SExp
  | list : List SExp → SExp

/-- Structural encoding of a node kind. -/
def encodeNodeType : NodeType → SExp
  | .InputNode => .nat 0
  | .HiddenNode => .nat 1
  | .OutputNode => .nat 2

/-- Decoder for `encodeNodeType`. -/
def decodeNodeType : SExp → Option NodeType
  | .nat 0 => some .InputNode
  | .nat 1 => some .HiddenNode
  | .nat 2 => some .OutputNode
  | _ => none

/-- Structural encoding of a layer id. -/
def encodeLayer : LayerID → SExp
  | .InputLayer => .nat 0
  | .HiddenLayer i => .pair (.nat 1) (.nat i)
  | .OutputLayer => .nat 2

/-- Decoder for `encodeLayer`. -/
def decodeLayer : SExp → Option LayerID
  | .nat 0 => some .InputLayer
  | .pair (.nat 1) (.nat i) => some (.HiddenLayer i)
  | .nat 2 => some .OutputLayer
  | _ => none

/-- Structural encoding of an activation function. -/
def encodeAfn : ActivationFn → SExp
  | .ReLU => .nat 0
  | .Sigmoid => .nat 1
  | .Tanh => .nat 2
  | .Linear => .nat 3
  | .LeakyReLU => .nat 4
  | .Step t => .pair (.nat 5) (.real t)

/-- Decoder for `encodeAfn`. -/
def decodeAfn : SExp → Option ActivationFn
  | .nat 0 => some .ReLU
  | .nat 1 => some .Sigmoid
  | .nat 2 => some .Tanh
  | .nat 3 => some .Linear
  | .nat 4 => some .LeakyReLU
  | .pair (.nat 5) (.real t) => some (.Step t)
  | _ => none

/-- Structural encoding of a node, every field included. -/
def encodeNode (n : Node) : SExp :=
  .list [encodeNodeType n.node_type, .nat n.id, encodeLayer n.layer_id,
    .real n.value, .real n.threshold, .real n.bias, encodeAfn n.activation_fn]

/-- Decoder for `encodeNode`. -/
def decodeNode : SExp → Option Node
  | .list [t, .nat id, l, .real v, .real th, .real b, a] =>
    (decodeNodeType t).bind fun nt =>
      (decodeLayer l).bind fun ll =>
        (decodeAfn a).map fun af => ⟨nt, id, ll, v, th, b, af⟩
  | _ => none

/-- Structural encoding of an edge. -/
def encodeEdge (e : Edge) : SExp :=
  .list [.nat e.id, .real e.weight, .nat e.node_from_id, .nat e.node_to_id]

/-- Decoder for `encodeEdge`. -/
def decodeEdge : SExp → Option Edge
  | .list [.nat id, .real w, .nat f, .nat t] => some ⟨id, w, f, t⟩
  | _ => none

/-- Element-wise decoding of an encoded list, failing if any element
fails. -/
def decodeListWith (dec : SExp → Option α) : List SExp → Option (List α)
  | [] => some []
  | s :: ss =>
    (dec s).bind fun a => (decodeListWith dec ss).map fun as' => a :: as'

/-- Modelled from the spec: `Network::serialize` delegates to the external
`serde_json` collaborator; per §6 it is a structural encoding of the full
node list, edge list, declared layers, fitness and default activation
function. -/
def Network.serialize (net : Network) : SExp :=
  .list [.list (net.nodes.map encodeNode), .list (net.edges.map encodeEdge),
    .list (net.layers.map encodeLayer), .opt (net.fitness.map .real),
    encodeAfn net.activation_fn]

/-- Modelled from the spec: `Network::deserialized` delegates to the
external `serde_json` collaborator; per §6 it reconstructs the network
exactly from the structural encoding, `none` on malformed input. -/
def Network.deserialized : SExp → Option Network
  | .list [.list ns, .list es, .list ls, .opt f, a] =>
    (decodeListWith decodeNode ns).bind fun nodes =>
      (decodeListWith decodeEdge es).bind fun edges =>
        (decodeListWith decodeLayer ls).bind fun layers =>
          (match f with
            | none => some none
            | some (.real x) => some (some x)
            | some _ => none).bind fun fitness =>
            (decodeAfn a).map fun afn => ⟨nodes, edges, layers, fitness, afn⟩
  | _ => none

/-! ### Auxiliary predicates and concrete instances used by the theorems -/

/-- Two nodes agree on every field except possibly the accumulator
`value`: the forward pass only ever writes `value`. -/
def Node.sameShape (a b : Node) : Prop :=
  a.node_type = b.node_type ∧ a.id = b.id ∧ a.layer_id = b.layer_id ∧
  a.threshold = b.threshold ∧ a.bias = b.bias ∧ a.activation_fn = b.activation_fn

/-- Field-wise `sameShape` between two node lists. -/
def shapeEq (xs ys : List Node) : Prop :=
  List.Forall₂ Node.sameShape xs ys

/-- Every accumulator is zero — the state of every network between
passes. -/
def allValuesZero (net : Network) : Prop :=
  ∀ n ∈ net.nodes, n.value = 0

/-- A constant index oracle. -/
def sigma0 : Nat → Nat := fun _ => 0

/-- A constant index oracle selecting index `1`. -/
def sigma1 : Nat → Nat := fun _ => 1

/-- A constant value oracle. -/
def rho0 : Nat → ℝ := fun _ => 0

/-- Concrete input for the propagation-order analysis: one input node
(id 1), one output node (id 2, bias 1, linear), a single edge `1 → 2` of
weight 1, layers declared as `[Input, Output]`. -/
def c1net : Network :=
  ⟨[⟨.InputNode, 1, .InputLayer, 0, 0, 0, .Linear⟩,
    ⟨.OutputNode, 2, .OutputLayer, 0, 0, 1, .Linear⟩],
   [⟨1, 1, 1, 2⟩],
   [.InputLayer, .OutputLayer], none, .Linear⟩

/-- Concrete edgeless network: a single output node with bias 1 and
linear activation. -/
def c2net : Network :=
  ⟨[⟨.OutputNode, 1, .OutputLayer, 0, 0, 1, .Linear⟩], [],
   [.InputLayer, .OutputLayer], none, .Linear⟩

/-- The bias of `c2net`'s single output node. -/
def c2bias : ℝ := 1

/-- Concrete network for the edge-ordering theorem: an output-layer node
(id 1) and an input-layer node (id 2). -/
def c3net : Network :=
  ⟨[⟨.OutputNode, 1, .OutputLayer, 0, 0, 0, .Linear⟩,
    ⟨.InputNode, 2, .InputLayer, 0, 0, 0, .Linear⟩], [],
   [.InputLayer, .OutputLayer], none, .Linear⟩

/-- Concrete empty network with declared input and output layers. -/
def c4net : Network :=
  ⟨[], [], [.InputLayer, .OutputLayer], none, .Linear⟩

/-- Network with a declared hidden layer and no nodes, start of the
id-reuse scenario. -/
def c5net0 : Network :=
  ⟨[], [], [.InputLayer, .HiddenLayer 0, .OutputLayer], none, .Linear⟩

/-- State `c5net0` after creating one hidden node (assigned id 1). -/
def c5net1 : Network :=
  ⟨[⟨.HiddenNode, 1, .HiddenLayer 0, 0, 0, 0, .Linear⟩], [],
   [.InputLayer, .HiddenLayer 0, .OutputLayer], none, .Linear⟩

/-- State `c5net1` after creating a second hidden node (assigned id 2). -/
def c5net2 : Network :=
  ⟨[⟨.HiddenNode, 1, .HiddenLayer 0, 0, 0, 0, .Linear⟩,
    ⟨.HiddenNode, 2, .HiddenLayer 0, 0, 0, 0, .Linear⟩], [],
   [.InputLayer, .HiddenLayer 0, .OutputLayer], none, .Linear⟩

/-- State `c5net2` after the `RemoveNode` mutation deleted the node with id 2. -/
def c5net3 : Network :=
  ⟨[⟨.HiddenNode, 1, .HiddenLayer 0, 0, 0, 0, .Linear⟩], [],
   [.InputLayer, .HiddenLayer 0, .OutputLayer], none, .Linear⟩

/-- Network with one hidden node (id 1) and two edges, one incident to
node 1 and one not. -/
def c6net : Network :=
  ⟨[⟨.HiddenNode, 1, .HiddenLayer 0, 0, 0, 0, .Linear⟩],
   [⟨1, 1, 1, 7⟩, ⟨2, 1, 7, 8⟩],
   [.InputLayer, .HiddenLayer 0, .OutputLayer], none, .Linear⟩

/-- The hidden node of `c6net`. -/
def c6nd : Node :=
  ⟨.HiddenNode, 1, .HiddenLayer 0, 0, 0, 0, .Linear⟩

/-- State `c6net` after removing node 1: its incident edge is swept, the other
edge survives. -/
def c6net' : Network :=
  ⟨[], [⟨2, 1, 7, 8⟩],
   [.InputLayer, .HiddenLayer 0, .OutputLayer], none, .Linear⟩

/-- A network with no nodes at all. -/
def c7net : Network :=
  ⟨[], [], [.InputLayer, .OutputLayer], none, .Linear⟩

/-- What `RemoveNode` on `c7net` actually produces: the fallback chain
`RemoveNode → AddNode → AddLayer` adds hidden layer 0 with one node. -/
def c7res : Network :=
  ⟨[⟨.HiddenNode, 1, .HiddenLayer 0, 0, 0, 0, .Linear⟩], [],
   [.InputLayer, .OutputLayer, .HiddenLayer 0], none, .Linear⟩

/-- A trivial mutation-round oracle (identity). -/
def c10mu : Nat → Nat → Network → Network := fun _ _ n => n

/-- A trivial evaluator. -/
def c10eps : Network → ℝ := fun _ => 0

/-! ### Round-trip lemmas for the structural encoding -/

theorem decodeNodeType_encode (t : NodeType) :
    decodeNodeType (encodeNodeType t) = some t := by
  cases t <;> rfl

theorem decodeLayer_encode (l : LayerID) :
    decodeLayer (encodeLayer l) = some l := by
  cases l <;> rfl

theorem decodeAfn_encode (a : ActivationFn) :
    decodeAfn (encodeAfn a) = some a := by
  cases a <;> rfl

theorem decodeNode_encode (n : Node) : decodeNode (encodeNode n) = some n := by
  cases n with
  | mk nt id l v th b a =>
    simp [encodeNode, decodeNode, decodeNodeType_encode, decodeLayer_encode,
      decodeAfn_encode]

theorem decodeEdge_encode (e : Edge) : decodeEdge (encodeEdge e) = some e := by
  cases e
  rfl

theorem decodeListWith_encode {α : Type} (dec : SExp → Option α) (enc : α → SExp)
    (h : ∀ a, dec (enc a) = some a) (l : List α) :
    decodeListWith dec (l.map enc) = some l := by
  induction l with
  | nil => rfl
  | cons a as ih => simp [decodeListWith, h, ih]

theorem deserialized_serialize (net : Network) :
    Network.deserialized (Network.serialize net) = some net := by
  cases net with
  | mk nodes edges layers fitness afn =>
    simp only [Network.serialize, Network.deserialized,
      decodeListWith_encode decodeNode encodeNode decodeNode_encode,
      decodeListWith_encode decodeEdge encodeEdge decodeEdge_encode,
      decodeListWith_encode decodeLayer encodeLayer decodeLayer_encode,
      decodeAfn_encode, Option.bind_some]
    cases fitness <;> simp

/-- C9: deserializing the serialization of a network yields a network
that fires identically on every input: the encoding reconstructs the
network exactly, and `fire` is a deterministic function of the network,
so the outputs agree on every input vector. -/
theorem serialize_roundtrip_fire (net : Network) (v : List ℝ) :
    Network.deserialized (Network.serialize net) = some net ∧
    (Network.deserialized (Network.serialize net)).map (fun m => fire m v) =
      some (fire net v) := by
  refine ⟨deserialized_serialize net, ?_⟩
  rw [deserialized_serialize net]
  rfl

/-! ### Edge creation (claim C3) -/

/-- C3: `Edge::create` succeeds only when the destination node's layer
strictly succeeds the source node's layer in the total layer order.
Whenever an endpoint id does not resolve or the destination's layer does
not compare `Greater` than the source's, the call fails and returns the
network unchanged (contrapositively, any successful creation had both
endpoints resolvable with `layer(to) > layer(from)`). -/
theorem edge_create_order_enforced (net : Network) (f t : Nat) (w : ℝ)
    (h : ((net.get_node f).bind fun nf =>
      (net.get_node t).map fun nt => nt.layer_id.cmp nf.layer_id) ≠ some .gt) :
    Edge.create net f t w = (none, net) := by
  unfold Edge.create
  cases hf : net.get_node f with
  | none => rfl
  | some nf =>
    cases ht : net.get_node t with
    | none => rfl
    | some nt =>
      rw [hf, ht] at h
      have h' : nt.layer_id.cmp nf.layer_id ≠ .gt := by simpa using h
      simp [h']

theorem edge_create_order_enforced_witness :
    (((c3net.get_node 1).bind fun nf =>
      (c3net.get_node 2).map fun nt => nt.layer_id.cmp nf.layer_id) ≠ some .gt) ∧
    Edge.create c3net 1 2 0 = (none, c3net) :=
  ⟨by decide, edge_create_order_enforced c3net 1 2 0 (by decide)⟩

/-! ### Input-length check (claim C8) -/

/-- C8: a `fire` call whose input vector length differs from the number
of input-layer nodes fails, and fails before any node state is mutated —
the returned network is the argument itself, so every node's value, bias
and activation function are unchanged. -/
theorem fire_length_mismatch_rejected (net : Network) (inputs : List ℝ)
    (h : (net.nodes.filter (fun n => n.layer_id = .InputLayer)).length ≠
      inputs.length) :
    fire net inputs = (none, net) := by
  unfold fire
  rw [if_pos h]

theorem fire_length_mismatch_rejected_witness :
    ((c4net.nodes.filter (fun n => n.layer_id = .InputLayer)).length ≠
      [(0 : ℝ)].length) ∧
    fire c4net [(0 : ℝ)] = (none, c4net) :=
  ⟨by decide, fire_length_mismatch_rejected c4net [0] (by decide)⟩

/-! ### The double activation of the output layer (claims C1, C2)

`Network::fire` iterates `self.layers` in stored order — `[Input,
Output, Hidden(0), …]` for networks built through `Network::create` /
`add_layer` — not in ascending layer order, and `fire_layer` activates
the nodes of the *successor* layer of the layer being fired.  Firing the
`Output` layer itself resolves its successor to `Output` again, so every
pass applies bias and activation to the output nodes twice: once when
some earlier layer's successor resolves to `Output` and once when the
`Output` layer is fired. -/

/-- C1 (failing evaluation): on `c1net` (edge `1 → 2` of weight 1, output
bias 1, linear activation, input `[1]`) the pass produces output `3`:
the output node receives its bias twice (`1·1 + 1 + 1`), while a pass
that processed layers in ascending order and activated each non-input
node exactly once would produce `Linear.run (1·1 + 1) = 2`. -/
theorem fire_double_activates_output :
    (fire c1net [1]).1 = some [3] ∧
    ActivationFn.Linear.run (1 * 1 + 1) = 2 ∧ (3 : ℝ) ≠ 2 := by
  refine ⟨?_, ?_, by norm_num⟩
  · simp [fire, c1net, loadInputs, fireLayers, fireLayer, accumulate, addToNode,
      nextLayer, activateNode, ActivationFn.run, resetNode]
    norm_num
  · simp [ActivationFn.run]
    norm_num

/-- C2 (failing evaluation): on the edgeless network `c2net` (one output
node, bias 1, linear activation) the pass returns `2 =
Linear.run (Linear.run (0 + 1) + 1)` — the output node is activated once
when the input layer's successor resolves to `Output` and once more when
the output layer itself is fired — instead of `activation(bias) =
Linear.run 1 = 1` as claimed. -/
theorem fire_no_edges_not_activation_of_bias :
    (fire c2net []).1 = some [2] ∧
    ActivationFn.Linear.run c2bias = 1 ∧ (2 : ℝ) ≠ 1 := by
  refine ⟨?_, ?_, by norm_num⟩
  · simp [fire, c2net, loadInputs, fireLayers, fireLayer, accumulate,
      nextLayer, activateNode, ActivationFn.run, resetNode]
    norm_num
  · simp [ActivationFn.run, c2bias]

/-! ### Node-id reuse after removal (claim C5) -/

/-- C5 (failing evaluation): node ids are assigned as `max existing id +
1`, so after creating hidden nodes 1 and 2 and removing node 2 through
the `RemoveNode` mutation, the next creation assigns id 2 again — the id
of a previously removed node is reused within the same network
instance. -/
theorem node_id_reused_after_removal :
    Node.create c5net0 (.HiddenLayer 0) 0 0 = some (1, c5net1) ∧
    Node.create c5net1 (.HiddenLayer 0) 0 0 = some (2, c5net2) ∧
    mutate 1 sigma1 rho0 0 c5net2 .RemoveNode = some (some c5net3) ∧
    Node.create c5net3 (.HiddenLayer 0) 0 0 = some (2, c5net2) :=
  ⟨rfl, rfl, rfl, rfl⟩

/-! ### Branch lemmas for the mutation dispatch -/

theorem mutate_addLayer_eq (fuel : Nat) (σ : Nat → Nat) (ρ : Nat → ℝ)
    (p : Nat) (net : Network) :
    mutate (fuel + 1) σ ρ p net .AddLayer =
      some ((Node.create net.add_layer.2 net.add_layer.1 0 (ρ p)).map
        (fun q => q.2)) :=
  rfl

theorem mutate_addNode_none (fuel : Nat) (σ : Nat → Nat) (ρ : Nat → ℝ)
    (p : Nat) (net : Network)
    (h : chooseL σ p (net.layers.filter LayerID.isHidden) = none) :
    mutate (fuel + 1) σ ρ p net .AddNode = mutate fuel σ ρ (p + 1) net .AddLayer := by
  have heq : mutate (fuel + 1) σ ρ p net .AddNode =
      match chooseL σ p (net.layers.filter LayerID.isHidden) with
      | none => mutate fuel σ ρ (p + 1) net .AddLayer
      | some layer => some ((Node.create net layer 0 (ρ (p + 1))).map (fun r => r.2)) :=
    rfl
  rw [heq, h]

theorem mutate_addNode_pick (fuel : Nat) (σ : Nat → Nat) (ρ : Nat → ℝ)
    (p : Nat) (net : Network) (layer : LayerID)
    (h : chooseL σ p (net.layers.filter LayerID.isHidden) = some layer) :
    mutate (fuel + 1) σ ρ p net .AddNode =
      some ((Node.create net layer 0 (ρ (p + 1))).map (fun r => r.2)) := by
  have heq : mutate (fuel + 1) σ ρ p net .AddNode =
      match chooseL σ p (net.layers.filter LayerID.isHidden) with
      | none => mutate fuel σ ρ (p + 1) net .AddLayer
      | some layer => some ((Node.create net layer 0 (ρ (p + 1))).map (fun r => r.2)) :=
    rfl
  rw [heq, h]

theorem mutate_addEdge_no_node (fuel : Nat) (σ : Nat → Nat) (ρ : Nat → ℝ)
    (p : Nat) (net : Network)
    (h : chooseL σ p net.nodes = none) :
    mutate (fuel + 1) σ ρ p net .AddEdge = mutate fuel σ ρ (p + 1) net .AddNode := by
  have heq : mutate (fuel + 1) σ ρ p net .AddEdge =
      match chooseL σ p net.nodes with
      | none => mutate fuel σ ρ (p + 1) net .AddNode
      | some node1 =>
        match chooseL σ (p + 1)
            (net.nodes.filter (fun n => n.layer_id ≠ node1.layer_id)) with
        | none => mutate fuel σ ρ (p + 2) net .AddNode
        | some node2 =>
          let pr := if node1.layer_id.cmp node2.layer_id = .lt
            then (node1, node2) else (node2, node1)
          if net.edges.any (fun e =>
              e.node_from_id = pr.1.id ∧ e.node_to_id = pr.2.id) then
            mutate fuel σ ρ (p + 2) net .ChangeWeight
          else
            match Edge.create net pr.1.id pr.2.id (ρ (p + 2)) with
            | (some _, net') => some (some net')
            | (none, _) => some none :=
    rfl
  rw [heq, h]

theorem mutate_addEdge_pick1 (fuel : Nat) (σ : Nat → Nat) (ρ : Nat → ℝ)
    (p : Nat) (net : Network) (node1 : Node)
    (h : chooseL σ p net.nodes = some node1) :
    mutate (fuel + 1) σ ρ p net .AddEdge =
      match chooseL σ (p + 1)
          (net.nodes.filter (fun n => n.layer_id ≠ node1.layer_id)) with
      | none => mutate fuel σ ρ (p + 2) net .AddNode
      | some node2 =>
        let pr := if node1.layer_id.cmp node2.layer_id = .lt
          then (node1, node2) else (node2, node1)
        if net.edges.any (fun e =>
            e.node_from_id = pr.1.id ∧ e.node_to_id = pr.2.id) then
          mutate fuel σ ρ (p + 2) net .ChangeWeight
        else
          match Edge.create net pr.1.id pr.2.id (ρ (p + 2)) with
          | (some _, net') => some (some net')
          | (none, _) => some none := by
  have heq : mutate (fuel + 1) σ ρ p net .AddEdge =
      match chooseL σ p net.nodes with
      | none => mutate fuel σ ρ (p + 1) net .AddNode
      | some node1 =>
        match chooseL σ (p + 1)
            (net.nodes.filter (fun n => n.layer_id ≠ node1.layer_id)) with
        | none => mutate fuel σ ρ (p + 2) net .AddNode
        | some node2 =>
          let pr := if node1.layer_id.cmp node2.layer_id = .lt
            then (node1, node2) else (node2, node1)
          if net.edges.any (fun e =>
              e.node_from_id = pr.1.id ∧ e.node_to_id = pr.2.id) then
            mutate fuel σ ρ (p + 2) net .ChangeWeight
          else
            match Edge.create net pr.1.id pr.2.id (ρ (p + 2)) with
            | (some _, net') => some (some net')
            | (none, _) => some none :=
    rfl
  rw [heq, h]

theorem mutate_removeNode_none (fuel : Nat) (σ : Nat → Nat) (ρ : Nat → ℝ)
    (p : Nat) (net : Network)
    (h : chooseL σ p (net.nodes.enum.filter (fun r => r.2.layer_id.isHidden)) =
      none) :
    mutate (fuel + 1) σ ρ p net .RemoveNode = mutate fuel σ ρ (p + 1) net .AddNode := by
  have heq : mutate (fuel + 1) σ ρ p net .RemoveNode =
      match chooseL σ p (net.nodes.enum.filter (fun r => r.2.layer_id.isHidden)) with
      | none => mutate fuel σ ρ (p + 1) net .AddNode
      | some q =>
        some (some { net with
          edges := net.edges.filter (fun e =>
            e.node_from_id ≠ q.2.id ∧ e.node_to_id ≠ q.2.id),
          nodes := net.nodes.eraseIdx q.1 }) :=
    rfl
  rw [heq, h]

theorem mutate_removeNode_pick (fuel : Nat) (σ : Nat → Nat) (ρ : Nat → ℝ)
    (p : Nat) (net : Network) (q : Nat × Node)
    (h : chooseL σ p (net.nodes.enum.filter (fun r => r.2.layer_id.isHidden)) =
      some q) :
    mutate (fuel + 1) σ ρ p net .RemoveNode =
      some (some { net with
        edges := net.edges.filter (fun e =>
          e.node_from_id ≠ q.2.id ∧ e.node_to_id ≠ q.2.id),
        nodes := net.nodes.eraseIdx q.1 }) := by
  have heq : mutate (fuel + 1) σ ρ p net .RemoveNode =
      match chooseL σ p (net.nodes.enum.filter (fun r => r.2.layer_id.isHidden)) with
      | none => mutate fuel σ ρ (p + 1) net .AddNode
      | some q =>
        some (some { net with
          edges := net.edges.filter (fun e =>
            e.node_from_id ≠ q.2.id ∧ e.node_to_id ≠ q.2.id),
          nodes := net.nodes.eraseIdx q.1 }) :=
    rfl
  rw [heq, h]

/-! ### RemoveNode sweeps incident edges (claim C6) -/

/-- C6: whenever the `RemoveNode` mutation actually removes a node (the
random choice over hidden nodes returned the index-node pair `q`), no
edge of the resulting network references the removed node's id as source
or destination: the `retain` sweep drops every incident edge. -/
theorem remove_node_no_dangling (net : Network) (σ : Nat → Nat) (ρ : Nat → ℝ)
    (p fuel : Nat) (q : Nat × Node) (net' : Network)
    (h1 : chooseL σ p (net.nodes.enum.filter (fun r => r.2.layer_id.isHidden)) =
      some q)
    (h2 : mutate (fuel + 1) σ ρ p net .RemoveNode = some (some net')) :
    ∀ e ∈ net'.edges, e.node_from_id ≠ q.2.id ∧ e.node_to_id ≠ q.2.id := by
  rw [mutate_removeNode_pick fuel σ ρ p net q h1] at h2
  have hn : net' = { net with
      edges := net.edges.filter (fun e =>
        e.node_from_id ≠ q.2.id ∧ e.node_to_id ≠ q.2.id),
      nodes := net.nodes.eraseIdx q.1 } := by
    injection h2 with h2'
    injection h2' with h2''
    exact h2''.symm
  subst hn
  intro e he
  simpa using (List.mem_filter.mp he).2

theorem remove_node_no_dangling_witness :
    (chooseL sigma0 0 (c6net.nodes.enum.filter (fun r => r.2.layer_id.isHidden)) =
      some (0, c6nd)) ∧
    (mutate 1 sigma0 rho0 0 c6net .RemoveNode = some (some c6net')) ∧
    ((⟨2, 1, 7, 8⟩ : Edge).node_from_id ≠ c6nd.id ∧
      (⟨2, 1, 7, 8⟩ : Edge).node_to_id ≠ c6nd.id) :=
  ⟨rfl, rfl,
    remove_node_no_dangling c6net sigma0 rho0 0 0 (0, c6nd) c6net' rfl rfl
      ⟨2, 1, 7, 8⟩ (by simp [c6net'])⟩

/-! ### Termination of the fallback dispatch (claim C7) -/

theorem mutate_addLayer_some (fuel : Nat) (σ : Nat → Nat) (ρ : Nat → ℝ)
    (p : Nat) (net : Network) : (mutate (fuel + 1) σ ρ p net .AddLayer).isSome := by
  rw [mutate_addLayer_eq]
  rfl

theorem mutate_addNode_some (fuel : Nat) (σ : Nat → Nat) (ρ : Nat → ℝ)
    (p : Nat) (net : Network) :
    (mutate (fuel + 1 + 1) σ ρ p net .AddNode).isSome := by
  cases h : chooseL σ p (net.layers.filter LayerID.isHidden) with
  | none =>
    rw [mutate_addNode_none (fuel + 1) σ ρ p net h]
    exact mutate_addLayer_some fuel σ ρ (p + 1) net
  | some layer =>
    rw [mutate_addNode_pick (fuel + 1) σ ρ p net layer h]
    rfl

theorem mutate_changeWeight_some (fuel : Nat) (σ : Nat → Nat) (ρ : Nat → ℝ)
    (p : Nat) (net : Network) (h : net.edges ≠ []) :
    (mutate (fuel + 1) σ ρ p net .ChangeWeight).isSome := by
  have he : net.edges.isEmpty = false := by
    simpa [List.isEmpty_iff] using h
  have heq : mutate (fuel + 1) σ ρ p net .ChangeWeight =
      if net.edges.isEmpty then mutate fuel σ ρ (p + 1) net .AddEdge
      else
        some (some { net with
          edges := modifyIdx net.edges (σ p % net.edges.length)
            (fun e => { e with weight := e.weight + ρ (p + 1) }) }) :=
    rfl
  rw [heq, he]
  rfl

theorem mutate_addEdge_some (fuel : Nat) (σ : Nat → Nat) (ρ : Nat → ℝ)
    (p : Nat) (net : Network) :
    (mutate (fuel + 1 + 1 + 1) σ ρ p net .AddEdge).isSome := by
  cases h1 : chooseL σ p net.nodes with
  | none =>
    rw [mutate_addEdge_no_node (fuel + 1 + 1) σ ρ p net h1]
    exact mutate_addNode_some fuel σ ρ (p + 1) net
  | some node1 =>
    rw [mutate_addEdge_pick1 (fuel + 1 + 1) σ ρ p net node1 h1]
    cases h2 : chooseL σ (p + 1)
        (net.nodes.filter (fun n => n.layer_id ≠ node1.layer_id)) with
    | none => exact mutate_addNode_some fuel σ ρ (p + 2) net
    | some node2 =>
      show (let pr := if node1.layer_id.cmp node2.layer_id = .lt
          then (node1, node2) else (node2, node1)
        if net.edges.any (fun e =>
            e.node_from_id = pr.1.id ∧ e.node_to_id = pr.2.id) then
          mutate (fuel + 1 + 1) σ ρ (p + 2) net .ChangeWeight
        else
          match Edge.create net pr.1.id pr.2.id (ρ (p + 2)) with
          | (some _, net') => some (some net')
          | (none, _) => some none).isSome
      set pr := if node1.layer_id.cmp node2.layer_id = .lt
        then (node1, node2) else (node2, node1) with hpr
      show (if net.edges.any (fun e =>
            e.node_from_id = pr.1.id ∧ e.node_to_id = pr.2.id) then
          mutate (fuel + 1 + 1) σ ρ (p + 2) net .ChangeWeight
        else
          match Edge.create net pr.1.id pr.2.id (ρ (p + 2)) with
          | (some _, net') => some (some net')
          | (none, _) => some none).isSome
      cases ha : net.edges.any (fun e =>
          decide (e.node_from_id = pr.1.id ∧ e.node_to_id = pr.2.id)) with
      | true =>
        rw [if_pos]
        · have hne : net.edges ≠ [] := by
            intro hnil
            rw [hnil] at ha
            simp at ha
          exact mutate_changeWeight_some (fuel + 1) σ ρ (p + 2) net hne
        · rfl
      | false =>
        rw [if_neg]
        · rcases hc : Edge.create net pr.1.id pr.2.id (ρ (p + 2)) with ⟨o, net'⟩
          cases o <;> rfl
        · simp

/-- C7 (amended): the fallback-chaining dispatch of
`MutableNetwork::mutate` terminates for every operator, every network
state and every randomness oracle — a fuel of 4 frames is never
exhausted, the longest chain being `RemoveEdge → AddEdge → AddNode →
AddLayer` — and `RemoveNode` on a network with no nodes at all does not
error: it falls back through `AddNode` to `AddLayer` and succeeds,
creating hidden layer 0 containing one fresh node. -/
theorem mutate_fallback_terminates :
    (∀ (net : Network) (σ : Nat → Nat) (ρ : Nat → ℝ) (p : Nat) (m : Mutation),
      (mutate 4 σ ρ p net m).isSome) ∧
    mutate 4 sigma0 rho0 0 c7net .RemoveNode = some (some c7res) := by
  constructor
  · intro net σ ρ p m
    show (mutate (1 + 1 + 1 + 1) σ ρ p net m).isSome
    cases m with
    | AddNode => exact mutate_addNode_some (1 + 1) σ ρ p net
    | AddLayer => exact mutate_addLayer_some (1 + 1 + 1) σ ρ p net
    | AddEdge => exact mutate_addEdge_some 1 σ ρ p net
    | RemoveNode =>
      cases h : chooseL σ p
          (net.nodes.enum.filter (fun r => r.2.layer_id.isHidden)) with
      | none =>
        rw [mutate_removeNode_none (1 + 1 + 1) σ ρ p net h]
        exact mutate_addNode_some 1 σ ρ (p + 1) net
      | some q =>
        rw [mutate_removeNode_pick (1 + 1 + 1) σ ρ p net q h]
        rfl
    | RemoveEdge =>
      have heq : mutate (1 + 1 + 1 + 1) σ ρ p net .RemoveEdge =
          if net.edges.isEmpty then mutate (1 + 1 + 1) σ ρ p net .AddEdge
          else some (some { net with
            edges := net.edges.eraseIdx (σ p % net.edges.length) }) :=
        rfl
      rw [heq]
      cases he : net.edges.isEmpty with
      | true =>
        rw [if_pos rfl]
        exact mutate_addEdge_some 0 σ ρ p net
      | false =>
        rw [if_neg (by simp)]
        rfl
    | ChangeWeight =>
      cases he : net.edges with
      | nil =>
        have heq : mutate (1 + 1 + 1 + 1) σ ρ p net .ChangeWeight =
            if net.edges.isEmpty then mutate (1 + 1 + 1) σ ρ (p + 1) net .AddEdge
            else
              some (some { net with
                edges := modifyIdx net.edges (σ p % net.edges.length)
                  (fun e => { e with weight := e.weight + ρ (p + 1) }) }) :=
          rfl
        have hemp : ([] : List Edge).isEmpty = true := rfl
        rw [heq, he, if_pos hemp]
        exact mutate_addEdge_some 0 σ ρ (p + 1) net
      | cons e es =>
        exact mutate_changeWeight_some (1 + 1 + 1) σ ρ p net (by rw [he]; simp)
    | ChangeBias =>
      have heq : mutate (1 + 1 + 1 + 1) σ ρ p net .ChangeBias =
          if net.nodes.isEmpty then mutate (1 + 1 + 1) σ ρ (p + 1) net .AddNode
          else
            some (some { net with
              nodes := modifyIdx net.nodes (σ p % net.nodes.length)
                (fun n => { n with bias := n.bias + ρ (p + 1) }) }) :=
        rfl
      rw [heq]
      cases hn : net.nodes.isEmpty with
      | true =>
        rw [if_pos rfl]
        exact mutate_addNode_some 1 σ ρ (p + 1) net
      | false =>
        rw [if_neg (by simp)]
        rfl
    | ChangeActivationFn =>
      have heq : mutate (1 + 1 + 1 + 1) σ ρ p net .ChangeActivationFn =
          if net.nodes.isEmpty then mutate (1 + 1 + 1) σ ρ (p + 1) net .AddNode
          else
            some (some { net with
              nodes := modifyIdx net.nodes (σ p % net.nodes.length)
                (fun n => { n with activation_fn := selectRandomAfn σ ρ (p + 1) }) }) :=
        rfl
      rw [heq]
      cases hn : net.nodes.isEmpty with
      | true =>
        rw [if_pos rfl]
        exact mutate_addNode_some 1 σ ρ (p + 1) net
      | false =>
        rw [if_neg (by simp)]
        rfl
  · rfl

/-- C7 (counterexample to the claim as stated): `RemoveNode` on a network
with no nodes at all does not report an error for the mutation attempt —
the dispatch returns a successful `Ok` result (a network with a fresh
hidden layer and node), which is distinct from the embedded error
outcome `some none`. -/
theorem remove_node_on_empty_not_error :
    mutate 4 sigma0 rho0 0 c7net .RemoveNode = some (some c7res) ∧
    (some (some c7res) : Option (Option Network)) ≠ some none :=
  ⟨rfl, by simp⟩

/-! ### Shape preservation through the forward pass (claim C4) -/

theorem sameShape_refl (a : Node) : a.sameShape a :=
  ⟨rfl, rfl, rfl, rfl, rfl, rfl⟩

theorem sameShape_trans {a b c : Node} (h1 : a.sameShape b) (h2 : b.sameShape c) :
    a.sameShape c := by
  obtain ⟨x1, x2, x3, x4, x5, x6⟩ := h1
  obtain ⟨y1, y2, y3, y4, y5, y6⟩ := h2
  exact ⟨x1.trans y1, x2.trans y2, x3.trans y3, x4.trans y4, x5.trans y5, x6.trans y6⟩

theorem shapeEq_refl (xs : List Node) : shapeEq xs xs := by
  induction xs with
  | nil => exact List.Forall₂.nil
  | cons a as ih => exact List.Forall₂.cons (sameShape_refl a) ih

theorem shapeEq_trans {xs ys zs : List Node} (h1 : shapeEq xs ys)
    (h2 : shapeEq ys zs) : shapeEq xs zs := by
  induction h1 generalizing zs with
  | nil => cases h2; exact List.Forall₂.nil
  | cons hab h ih =>
    cases h2 with
    | cons hbc h2' => exact List.Forall₂.cons (sameShape_trans hab hbc) (ih h2')

theorem loadInputs_shape (ns : List Node) (ins : List ℝ) :
    shapeEq ns (loadInputs ns ins) := by
  induction ns generalizing ins with
  | nil => exact List.Forall₂.nil
  | cons n ns ih =>
    cases ins with
    | nil =>
      have heq : loadInputs (n :: ns) [] =
          if n.layer_id = .InputLayer then n :: ns else n :: loadInputs ns [] := rfl
      by_cases h : n.layer_id = .InputLayer
      · rw [heq, if_pos h]
        exact shapeEq_refl _
      · rw [heq, if_neg h]
        exact List.Forall₂.cons (sameShape_refl n) (ih [])
    | cons i is' =>
      have heq : loadInputs (n :: ns) (i :: is') =
          if n.layer_id = .InputLayer then { n with value := i } :: loadInputs ns is'
          else n :: loadInputs ns (i :: is') := rfl
      by_cases h : n.layer_id = .InputLayer
      · rw [heq, if_pos h]
        exact List.Forall₂.cons ⟨rfl, rfl, rfl, rfl, rfl, rfl⟩ (ih is')
      · rw [heq, if_neg h]
        exact List.Forall₂.cons (sameShape_refl n) (ih (i :: is'))

theorem addToNode_shape (ns : List Node) (t : Nat) (dv : ℝ) (ns' : List Node)
    (h : addToNode ns t dv = some ns') : shapeEq ns ns' := by
  induction ns generalizing ns' with
  | nil => simp [addToNode] at h
  | cons n ns ih =>
    have heq : addToNode (n :: ns) t dv =
        if n.id = t then some ({ n with value := n.value + dv } :: ns)
        else (addToNode ns t dv).map (fun ms => n :: ms) := rfl
    rw [heq] at h
    by_cases hid : n.id = t
    · rw [if_pos hid] at h
      injection h with h'
      rw [← h']
      exact List.Forall₂.cons ⟨rfl, rfl, rfl, rfl, rfl, rfl⟩ (shapeEq_refl ns)
    · rw [if_neg hid] at h
      cases hr : addToNode ns t dv with
      | none => rw [hr] at h; simp at h
      | some ns₁ =>
        rw [hr] at h
        simp only [Option.map_some'] at h
        injection h with h'
        rw [← h']
        exact List.Forall₂.cons (sameShape_refl n) (ih ns₁ hr)

theorem accumulate_shape (ts : List (Nat × Nat × ℝ)) (ns : List Node) (b : Bool)
    (ns' : List Node) (h : accumulate ns ts = (b, ns')) : shapeEq ns ns' := by
  induction ts generalizing ns with
  | nil =>
    have h' : ((true, ns) : Bool × List Node) = (b, ns') := h
    injection h' with h1 h2
    rw [← h2]
    exact shapeEq_refl ns
  | cons tr rest ih =>
    obtain ⟨f, t, w⟩ := tr
    have heq : accumulate ns ((f, t, w) :: rest) =
        match ns.find? (fun n => n.id = f) with
        | none => (false, ns)
        | some nf =>
          match addToNode ns t (nf.value * w) with
          | none => (false, ns)
          | some ns₁ => accumulate ns₁ rest := rfl
    rw [heq] at h
    cases hf : ns.find? (fun n => n.id = f) with
    | none =>
      rw [hf] at h
      have h' : ((false, ns) : Bool × List Node) = (b, ns') := h
      injection h' with h1 h2
      rw [← h2]
      exact shapeEq_refl ns
    | some nf =>
      rw [hf] at h
      have h2 : (match addToNode ns t (nf.value * w) with
          | none => ((false, ns) : Bool × List Node)
          | some ns₁ => accumulate ns₁ rest) = (b, ns') := h
      cases ha : addToNode ns t (nf.value * w) with
      | none =>
        rw [ha] at h2
        have h' : ((false, ns) : Bool × List Node) = (b, ns') := h2
        injection h' with h1 h3
        rw [← h3]
        exact shapeEq_refl ns
      | some ns₁ =>
        rw [ha] at h2
        exact shapeEq_trans (addToNode_shape ns t (nf.value * w) ns₁ ha) (ih ns₁ h2)

theorem map_activate_shape (ns : List Node) (nl : LayerID) :
    shapeEq ns (ns.map (fun n => if n.layer_id = nl then activateNode n else n)) := by
  induction ns with
  | nil => exact List.Forall₂.nil
  | cons n ns ih =>
    refine List.Forall₂.cons ?_ ih
    show n.sameShape (if n.layer_id = nl then activateNode n else n)
    by_cases h : n.layer_id = nl
    · rw [if_pos h]
      exact ⟨rfl, rfl, rfl, rfl, rfl, rfl⟩
    · rw [if_neg h]
      exact sameShape_refl n

theorem shape_map_reset {xs ys : List Node} (h : shapeEq xs ys) :
    xs.map resetNode = ys.map resetNode := by
  induction h with
  | nil => rfl
  | @cons a b l₁ l₂ hab h ih =>
    rw [List.map_cons, List.map_cons, ih]
    obtain ⟨e1, e2, e3, e4, e5, e6⟩ := hab
    have hr : resetNode a = resetNode b := by
      apply Node.ext <;> simp [resetNode, e1, e2, e3, e4, e5, e6]
    rw [hr]

theorem reset_map_id (ns : List Node) (h : ∀ n ∈ ns, n.value = 0) :
    ns.map resetNode = ns := by
  induction ns with
  | nil => rfl
  | cons n ns ih =>
    rw [List.map_cons, ih (fun m hm => h m (List.mem_cons_of_mem n hm))]
    have hv : n.value = 0 := h n (List.mem_cons_self n ns)
    have hr : resetNode n = n := by
      apply Node.ext <;> simp [resetNode, hv]
    rw [hr]

theorem fireLayer_state (net : Network) (l : LayerID) (b : Bool) (net' : Network)
    (h : fireLayer net l = (b, net')) :
    net'.edges = net.edges ∧ net'.layers = net.layers ∧
    net'.fitness = net.fitness ∧ net'.activation_fn = net.activation_fn ∧
    shapeEq net.nodes net'.nodes := by
  by_cases hc : net.layers.contains l = true
  · have heq : fireLayer net l =
        match accumulate net.nodes (layerTriples net l) with
        | (false, ns) => (false, { net with nodes := ns })
        | (true, ns) =>
          if ¬ net.layers.contains (nextLayer net l) = true then
            (false, { net with nodes := ns })
          else
            (true, { net with nodes := ns.map (fun n => if n.layer_id = nextLayer net l then activateNode n else n) }) := by
      unfold fireLayer
      rw [if_neg (not_not_intro hc)]
    rw [heq] at h
    rcases hacc : accumulate net.nodes (layerTriples net l) with ⟨ab, ns⟩
    rw [hacc] at h
    have hsh := accumulate_shape (layerTriples net l) net.nodes ab ns hacc
    cases ab with
    | false =>
      have h' : ((false, { net with nodes := ns }) : Bool × Network) = (b, net') := h
      injection h' with h1 h2
      rw [← h2]
      exact ⟨rfl, rfl, rfl, rfl, hsh⟩
    | true =>
      by_cases hnl : net.layers.contains (nextLayer net l) = true
      · have h' : (if ¬ net.layers.contains (nextLayer net l) = true then
            ((false, { net with nodes := ns }) : Bool × Network)
          else
            (true, { net with nodes := ns.map (fun n => if n.layer_id = nextLayer net l then activateNode n else n) })) =
            (b, net') := h
        rw [if_neg (not_not_intro hnl)] at h'
        injection h' with h1 h2
        rw [← h2]
        exact ⟨rfl, rfl, rfl, rfl,
          shapeEq_trans hsh (map_activate_shape ns (nextLayer net l))⟩
      · have h' : (if ¬ net.layers.contains (nextLayer net l) = true then
            ((false, { net with nodes := ns }) : Bool × Network)
          else
            (true, { net with nodes := ns.map (fun n => if n.layer_id = nextLayer net l then activateNode n else n) })) =
            (b, net') := h
        rw [if_pos hnl] at h'
        injection h' with h1 h2
        rw [← h2]
        exact ⟨rfl, rfl, rfl, rfl, hsh⟩
  · have heq : fireLayer net l = (false, net) := by
      unfold fireLayer
      rw [if_pos hc]
    rw [heq] at h
    injection h with h1 h2
    rw [← h2]
    exact ⟨rfl, rfl, rfl, rfl, shapeEq_refl net.nodes⟩

theorem fireLayers_state (ls : List LayerID) (net : Network) (b : Bool)
    (net' : Network) (h : fireLayers net ls = (b, net')) :
    net'.edges = net.edges ∧ net'.layers = net.layers ∧
    net'.fitness = net.fitness ∧ net'.activation_fn = net.activation_fn ∧
    shapeEq net.nodes net'.nodes := by
  induction ls generalizing net with
  | nil =>
    have h' : ((true, net) : Bool × Network) = (b, net') := h
    injection h' with h1 h2
    rw [← h2]
    exact ⟨rfl, rfl, rfl, rfl, shapeEq_refl net.nodes⟩
  | cons l ls ih =>
    have heq : fireLayers net (l :: ls) =
        match fireLayer net l with
        | (false, n1) => (false, n1)
        | (true, n1) => fireLayers n1 ls := rfl
    rw [heq] at h
    rcases hf : fireLayer net l with ⟨fb, n1⟩
    rw [hf] at h
    obtain ⟨e1, e2, e3, e4, e5⟩ := fireLayer_state net l fb n1 hf
    cases fb with
    | false =>
      have h' : ((false, n1) : Bool × Network) = (b, net') := h
      injection h' with h1 h2
      rw [← h2]
      exact ⟨e1, e2, e3, e4, e5⟩
    | true =>
      have h' : fireLayers n1 ls = (b, net') := h
      obtain ⟨f1, f2, f3, f4, f5⟩ := ih n1 h'
      exact ⟨f1.trans e1, f2.trans e2, f3.trans e3, f4.trans e4, shapeEq_trans e5 f5⟩

theorem fire_eq_pos (net : Network) (v : List ℝ)
    (h : ¬ ((net.nodes.filter (fun n => n.layer_id = .InputLayer)).length ≠ v.length)) :
    fire net v =
      match fireLayers { net with nodes := loadInputs net.nodes v } net.layers with
      | (false, net2) => (none, net2)
      | (true, net2) =>
        if net2.layers.contains LayerID.OutputLayer then
          (some ((net2.nodes.filter (fun n => n.layer_id = .OutputLayer)).map
            (fun n => n.value)), { net2 with nodes := net2.nodes.map resetNode })
        else (none, net2) := by
  unfold fire
  rw [if_neg h]

theorem fire_success_state (net : Network) (v : List ℝ) (o : List ℝ)
    (n1 : Network) (h : fire net v = (some o, n1)) :
    n1 = { net with nodes := net.nodes.map resetNode } := by
  by_cases hl : (net.nodes.filter (fun n => n.layer_id = .InputLayer)).length ≠ v.length
  · unfold fire at h
    rw [if_pos hl] at h
    simp at h
  · rw [fire_eq_pos net v hl] at h
    rcases hf : fireLayers { net with nodes := loadInputs net.nodes v } net.layers
      with ⟨fb, net2⟩
    rw [hf] at h
    cases fb with
    | false =>
      have h' : ((none, net2) : Option (List ℝ) × Network) = (some o, n1) := h
      simp at h'
    | true =>
      by_cases ho : net2.layers.contains LayerID.OutputLayer = true
      · have h' : (if net2.layers.contains LayerID.OutputLayer = true then
            ((some ((net2.nodes.filter (fun n => n.layer_id = .OutputLayer)).map
              (fun n => n.value)), { net2 with nodes := net2.nodes.map resetNode }) :
              Option (List ℝ) × Network)
          else (none, net2)) = (some o, n1) := h
        rw [if_pos ho] at h'
        injection h' with h1 h2
        obtain ⟨e1, e2, e3, e4, e5⟩ := fireLayers_state net.layers
          { net with nodes := loadInputs net.nodes v } true net2 hf
        have hsh0 : shapeEq net.nodes net2.nodes :=
          shapeEq_trans (loadInputs_shape net.nodes v) e5
        have hmap : net2.nodes.map resetNode = net.nodes.map resetNode :=
          (shape_map_reset hsh0).symm
        rw [← h2]
        apply Network.ext <;> simp [hmap, e1, e2, e3, e4]
      · have h' : (if net2.layers.contains LayerID.OutputLayer = true then
            ((some ((net2.nodes.filter (fun n => n.layer_id = .OutputLayer)).map
              (fun n => n.value)), { net2 with nodes := net2.nodes.map resetNode }) :
              Option (List ℝ) × Network)
          else (none, net2)) = (some o, n1) := h
        rw [if_neg ho] at h'
        simp at h'

/-- C4: for any network whose accumulators are all zero — the state of
every network between passes, since node creation initialises `value` to
zero and every successful pass ends by resetting every accumulator — a
successful `fire` leaves the network bit-identical to its pre-pass state,
so firing again with the same input yields the identical output vector
and state: no state leaks from one pass into the next. -/
theorem fire_idempotent_reset (net : Network) (v : List ℝ) (o : List ℝ)
    (n1 : Network) (h0 : allValuesZero net) (h : fire net v = (some o, n1)) :
    fire n1 v = (some o, n1) := by
  have hn : n1 = net := by
    rw [fire_success_state net v o n1 h, reset_map_id net.nodes h0]
  rw [hn] at h ⊢
  exact h

theorem fire_idempotent_reset_witness :
    allValuesZero c4net ∧ fire c4net [] = (some [], c4net) ∧
    fire c4net [] = (some [], c4net) :=
  ⟨fun n hn => by simp [c4net] at hn, rfl,
    fire_idempotent_reset c4net [] [] c4net (fun n hn => by simp [c4net] at hn) rfl⟩

/-! ### The generation step produces 100 individuals from the top 5
(claim C10) -/

/-- C10: with population size 100 and retention threshold 5, one
`next_generation` step produces a population of exactly 100 individuals,
and every one of them is derived from one of the top 5 individuals of
the (descending-sorted) input population: it is the `(j+1)`-fold
cumulative mutation of seed `i < 5` (for some `j < 20`), stamped with the
evaluator's fitness. -/
theorem next_generation_size_provenance (pop : List Network)
    (μ : Nat → Nat → Network → Network) (ε : Network → ℝ)
    (h : pop.length = 100) :
    (next_generation pop μ ε 5 100).length = 100 ∧
    ∀ x ∈ next_generation pop μ ε 5 100, ∃ i, i < 5 ∧ ∃ j, j < 20 ∧
      x = { chainState μ i (pop.getD i default) (j + 1) with
        fitness := some (ε (chainState μ i (pop.getD i default) (j + 1))) } := by
  constructor
  · unfold next_generation sort_by_fitness
    rw [List.length_mergeSort]
    unfold evaluate_all
    rw [List.length_map]
    unfold repopulate
    rw [List.length_flatMap]
    have hmap : List.map
        (List.length ∘ fun i => groupPushes μ i (pop.getD i default) (100 / 5))
        (List.range 5) = List.map (fun _ => 20) (List.range 5) := by
      apply List.map_congr_left
      intro i _
      show (groupPushes μ i (pop.getD i default) (100 / 5)).length = 20
      unfold groupPushes
      rw [List.length_map, List.length_range]
    rw [hmap]
    decide
  · intro x hx
    unfold next_generation sort_by_fitness at hx
    rw [(List.mergeSort_perm _ _).mem_iff] at hx
    unfold evaluate_all at hx
    rw [List.mem_map] at hx
    obtain ⟨y, hy, hxy⟩ := hx
    unfold repopulate at hy
    rw [List.mem_flatMap] at hy
    obtain ⟨i, hi, hyg⟩ := hy
    unfold groupPushes at hyg
    rw [List.mem_map] at hyg
    obtain ⟨j, hj, hyj⟩ := hyg
    refine ⟨i, List.mem_range.mp hi, j, List.mem_range.mp hj, ?_⟩
    rw [← hxy, ← hyj]

theorem next_generation_size_provenance_witness :
    (List.replicate 100 (default : Network)).length = 100 ∧
    (next_generation (List.replicate 100 (default : Network)) c10mu c10eps 5 100).length =
      100 :=
  ⟨by simp,
    (next_generation_size_provenance (List.replicate 100 default) c10mu c10eps
      (by simp)).1⟩

end NNRS
